import Mathlib

/-!
# Verification of `git-author-stats`

A shallow embedding of the authorship-attribution pipeline of the
`git-author-stats` repository (`src/main.rs`, `src/cli_args.rs`), together
with theorems settling the specification claims about it.

Modelling conventions:
* Rust `String` is Lean `String`; character-level operations work on `String.data`
  (the underlying `List Char`); the ASCII fragment of Rust's Unicode case
  conversions is modelled with `Char.toLower` / `Char.toUpper`, which agree with
  Rust on ASCII input.
* `hashbrown::HashMap` is modelled as an association list.  Iteration order of a
  `HashMap` is arbitrary, so theorems about map-iterating code quantify over the
  list (every iteration order is some list).  Lookup totals are expressed with
  `getCount` (sum of the values stored under a key), which coincides with
  `HashMap::get` when keys are unique — as they always are for maps built by the
  embedded operations.
* `i32` counts are modelled as `Int` (line counts never approach `i32` bounds;
  overflow is immaterial to the claims).
* External `git` process calls (`git_revision`, `git_ls-tree`, `git blame`) are
  oracles passed as function parameters; a Rust `panic!`/`expect` is modelled as
  `Except.error`.
-/

set_option maxRecDepth 8192

namespace GitAuthorStats

/-- `type Author = String;` (main.rs:14) -/
abbrev Author := String

/-- `type Date = String;` (main.rs:15) -/
abbrev Date := String

/-- `type Count = i32;` (main.rs:16), modelled as `Int`. -/
abbrev Count := Int

/-- `type AuthorCount = HashMap<Author, Count>;` (main.rs:17), as an association list. -/
abbrev AuthorCount := List (Author × Count)

/-- `type AuthorPerformance = HashMap<Date, AuthorCount>;` (main.rs:18). -/
abbrev AuthorPerformance := List (Date × AuthorCount)

/-! ## Association-list operations mirroring `HashMap` usage -/

/-- `*m.entry_ref(k).or_insert(0) += v` (main.rs:149, 176, 261): add `v` to the
entry for `k`, inserting `0 + v` if absent. -/
def addCount : AuthorCount → Author → Count → AuthorCount
  | [], a, v => [(a, v)]
  | (k, c) :: rest, a, v =>
    if k = a then (k, c + v) :: rest else (k, c) :: addCount rest a v

/-- Total count stored under author `a` (`HashMap::get` with default `0`; for the
association lists built here keys are unique, so this is exactly the stored value). -/
def getCount : AuthorCount → Author → Count
  | [], _ => 0
  | (k, c) :: rest, a => (if k = a then c else 0) + getCount rest a

/-- Sum of all counts in one author-count map. -/
def bucketTotal : AuthorCount → Count
  | [] => 0
  | (_, c) :: rest => c + bucketTotal rest

/-- `perf.entry_ref(date)` access followed by mutation of the date's bucket:
apply `f` to the bucket stored at `d`, inserting `f []` if `d` is absent
(mirrors `formatted.entry_ref(date).or_insert(AuthorCount::new())`, main.rs:165). -/
def updateDate : AuthorPerformance → Date → (AuthorCount → AuthorCount) → AuthorPerformance
  | [], d, f => [(d, f [])]
  | (k, m) :: rest, d, f =>
    if k = d then (k, f m) :: rest else (k, m) :: updateDate rest d f

/-- `authors.insert(date_str, dauth)` (main.rs:266): insert, replacing any
existing entry for the key. -/
def insertPerf (perf : AuthorPerformance) (d : Date) (m : AuthorCount) : AuthorPerformance :=
  updateDate perf d (fun _ => m)

/-- The dates (keys) of an `AuthorPerformance`. -/
def perfDates (perf : AuthorPerformance) : List Date := perf.map (fun p => p.1)

/-- Total of all counts recorded under date `d`. -/
def periodTotal : AuthorPerformance → Date → Count
  | [], _ => 0
  | (k, m) :: rest, d => (if k = d then bucketTotal m else 0) + periodTotal rest d

/-- Count recorded for author `a` in period `d`. -/
def periodCount : AuthorPerformance → Date → Author → Count
  | [], _, _ => 0
  | (k, m) :: rest, d, a => (if k = d then getCount m a else 0) + periodCount rest d a

/-! ## Identity Normalizer (`reformat`, main.rs:155-181) -/

/-- A character matched by `RE_SPECIAL`, the regex `[-_\.]` (main.rs:158). -/
def isSpecial (c : Char) : Bool := c = '-' || c = '_' || c = '.'

/-- `RE_SPECIAL.replace_all(&author, " ")` (main.rs:169): each match of `[-_\.]`
is a single character, so every separator character is replaced by one space. -/
def replaceSpecial (l : List Char) : List Char :=
  l.map (fun c => if isSpecial c then ' ' else c)

/-- `.to_lowercase()` (main.rs:169), ASCII fragment. -/
def lowerAll (l : List Char) : List Char := l.map Char.toLower

/-- A regex word character (`\w`), ASCII fragment: the `\b` in `RE_CAPITAL`
(main.rs:159) is a boundary between a word and a non-word position. -/
def isWordChar (c : Char) : Bool := c.isAlphanum || c = '_'

/-- The capitalization loop (main.rs:170-174): every `[a-z]` character standing
at a word boundary — i.e. at the start or right after a non-word character — is
replaced by its upper-case form.  `prevWord` records whether the previous
character was a word character. -/
def capitalizeFrom : Bool → List Char → List Char
  | _, [] => []
  | prevWord, c :: rest =>
    (if !prevWord && c.isLower then c.toUpper else c) :: capitalizeFrom (isWordChar c) rest

/-- Author-name normalization applied to one raw name inside `reformat`
(main.rs:169-174): replace separators, lower-case, capitalize word starts. -/
def reformatName (s : String) : String :=
  ⟨capitalizeFrom false (lowerAll (replaceSpecial s.data))⟩

/-- Inner loop of `reformat` (main.rs:166-177): fold one raw per-date bucket
into the already-accumulated normalized bucket. -/
def reformatBucket (acc : AuthorCount) (acnt : AuthorCount) : AuthorCount :=
  acnt.foldl (fun b p => addCount b (reformatName p.1) p.2) acc

/-- `reformat` (main.rs:155-181): rebuild the performance map with normalized
author names, summing counts of raw names that normalize identically.  The input
list order stands for the arbitrary `HashMap` iteration order. -/
def reformat (perf : AuthorPerformance) : AuthorPerformance :=
  perf.foldl (fun acc p => updateDate acc p.1 (fun b => reformatBucket b p.2)) []

example : reformatName "jane-doe" = "Jane Doe" := by decide
example : reformatName "Jane_Doe" = "Jane Doe" := by decide
example : reformatName "jane--doe" = "Jane  Doe" := by decide

/-! ## Exclusion Classifier (`reason_to_skip`, main.rs:81-132) -/

/-- `binary_ext_list` (main.rs:83-95). -/
def binary_ext_list : List String :=
  ["bin", "data", "elf", "gz", "hex128", "hex8", "pdf", "png", "tar", "wcfg", "xlsx"]

/-- `generated_ext_list` (main.rs:97-104). -/
def generated_ext_list : List String := ["v", "xml", "edif", "edf", "rpt", "xci"]

/-- `str::starts_with` on UTF-8 strings. -/
def strStartsWith (s pre : String) : Bool := pre.data.isPrefixOf s.data

/-- `str::ends_with` on UTF-8 strings. -/
def strEndsWith (s suf : String) : Bool := suf.data.isSuffixOf s.data

/-- Split a character list at every occurrence of `sep` (the separator is
dropped); always returns at least one (possibly empty) component. -/
def splitChar (sep : Char) : List Char → List (List Char)
  | [] => [[]]
  | c :: rest =>
    match splitChar sep rest with
    | [] => [[c]]
    | a :: r => if c = sep then [] :: a :: r else (c :: a) :: r

/-- `PathBuf::file_name` for the relative slash-separated paths produced by
`git ls-tree`: the component after the last `/`; `none` when that component is
empty, `.` or `..` (the cases where Rust returns `None`). -/
def fileName (p : String) : Option String :=
  match (splitChar '/' p.data).getLast? with
  | none => none
  | some n => if n = [] || n = ['.'] || n = ['.', '.'] then none else some ⟨n⟩

/-- `PathBuf::extension`: the part of the file name after the last `.`; `none`
when the file name has no `.`, or starts with its only `.`. -/
def extension (p : String) : Option String :=
  match fileName p with
  | none => none
  | some n =>
    let parts := splitChar '.' n.data
    if parts.length ≤ 1 then none
    else if n.data.head? = some '.' && parts.length = 2 then none
    else parts.getLast?.map (fun e => (⟨e⟩ : String))

/-- `reason_to_skip` (main.rs:81-132): prefix checks, then extension sets, then
the `.bd.tcl` file-name suffix. -/
def reason_to_skip (path : String) : Option String :=
  if strStartsWith path "xip/" then some "mostly imported     "
  else if strStartsWith path "cache/" then some "generated           "
  else
    let extHit : Option String :=
      match extension path with
      | some ext =>
        if binary_ext_list.contains ext then some "binary extension    "
        else if generated_ext_list.contains ext then some "autogenerated       "
        else none
      | none => none
    match extHit with
    | some r => some r
    | none =>
      match fileName path with
      | some n => if strEndsWith n ".bd.tcl" then some "mostly autogenerated" else none
      | none => none

/-- The classifier as §4.3 of the spec orders the rules: generated-output
prefix first, then vendored/imported prefix, then the binary extension set,
then the generated-source extension set, then the artifact file-name suffix.
Stated from the spec's words, for comparison with `reason_to_skip`. -/
def specClassify (path : String) : Option String :=
  if strStartsWith path "cache/" then some "generated           "
  else if strStartsWith path "xip/" then some "mostly imported     "
  else
    match extension path with
    | some ext =>
      if binary_ext_list.contains ext then some "binary extension    "
      else if generated_ext_list.contains ext then some "autogenerated       "
      else
        match fileName path with
        | some n => if strEndsWith n ".bd.tcl" then some "mostly autogenerated" else none
        | none => none
    | none =>
      match fileName path with
      | some n => if strEndsWith n ".bd.tcl" then some "mostly autogenerated" else none
      | none => none

example : reason_to_skip "cache/out.bin" = some "generated           " := by decide
example : reason_to_skip "src/thing.v" = some "autogenerated       " := by decide
example : reason_to_skip "src/main.rs" = none := by decide
example : reason_to_skip "top.bd.tcl" = some "mostly autogenerated" := by decide
example : reason_to_skip "xip/core.v" = some "mostly imported     " := by decide

/-! ## Period generation (main.rs:221-227) -/

/-- Zero-padding of the month in `format!("{year:4}-{month:02}-01")`. -/
def pad2 (m : Nat) : String := if m < 10 then "0" ++ toString m else toString m

/-- `format!("{year:4}-{month:02}-01")` for the four-digit years in use. -/
def fmtDate (y m : Nat) : Date := toString y ++ "-" ++ pad2 m ++ "-01"

/-- Inner loop `for month in 1..=12` (main.rs:224-226). -/
def monthsOfYear (y : Nat) : List (Nat × Nat) := (List.range 12).map (fun j => (y, j + 1))

/-- Outer loop `for year in 2016..=dt.year()` (main.rs:223): all (year, month)
pairs pushed, as pairs.  `cy` is the current year `dt.year()`. -/
def genPeriods (cy : Nat) : List (Nat × Nat) :=
  (List.range (cy + 1 - 2016)).flatMap (fun i => monthsOfYear (2016 + i))

/-- The `dates` vector built at startup (main.rs:221-227). -/
def genDates (cy : Nat) : List Date := (genPeriods cy).map (fun p => fmtDate p.1 p.2)

/-- Modelled from the spec (§3 "Period"): the months from January 2016 through
the current month `(cy, cm)` only.  Stated for comparison with `genPeriods`. -/
def specPeriods (cy cm : Nat) : List (Nat × Nat) :=
  (List.range (cy - 2016)).flatMap (fun i => monthsOfYear (2016 + i))
    ++ (List.range cm).map (fun j => (cy, j + 1))

/-- Chronological order on (year, month) pairs. -/
def periodBefore (a b : Nat × Nat) : Prop := a.1 < b.1 ∨ (a.1 = b.1 ∧ a.2 < b.2)

/-! ## CLI arguments (`cli_args.rs:12-36`) -/

/-- `struct Args` (cli_args.rs:12-36). -/
structure Args where
  alphabetical : Bool
  as_percent : Bool
  show_excluded : Bool
  branch : Option String
  date : Option String
  path : String

/-! ## Period aggregation (main.rs:258-263) -/

/-- Merging one worker's `AuthorCount` into the running period total
(main.rs:260-262). -/
def mergeInto (acc : AuthorCount) (fauth : AuthorCount) : AuthorCount :=
  fauth.foldl (fun a p => addCount a p.1 p.2) acc

/-- The fan-in fold (main.rs:258-263): merge every worker result, in the order
received on the channel (the list order stands for the arbitrary completion
order), into one per-period `AuthorCount`. -/
def collectCounts (results : List AuthorCount) : AuthorCount :=
  results.foldl mergeInto []

/-! ## The driver loop (`main`, main.rs:217-270)

The three `git` subprocesses are oracles: `gitRevision branch before` models
`git_revision` (main.rs:37-63, `None` = non-zero exit status), `gitFiles rev`
models `git_files` (main.rs:65-79), and `gitBlame rev file` models
`git_author_line_count` (main.rs:134-153).  The `.expect(...)` panic at
main.rs:233 is modelled as `Except.error`. -/

/-- The eligible (not skipped) files of one period, `none`-revision periods
yielding `[]` (main.rs:234-243). -/
def eligibleFiles (gitRevision : Option String → Option Date → Option String)
    (gitFiles : String → List String) (opt : Args) (date : Date) : List String :=
  match gitRevision opt.branch (some date) with
  | none => []
  | some revision => (gitFiles revision).filter (fun f => (reason_to_skip f).isNone)

/-- The body of the per-period loop of `main` (main.rs:232-267): resolve the
snapshot (`.expect` panic modelled as `Except.error` when `git_revision`
returns `None`, main.rs:233), list and filter the files, `continue` (keep the
accumulator) when no file is eligible, otherwise aggregate and insert. -/
def stepPeriod (gitRevision : Option String → Option Date → Option String)
    (gitFiles : String → List String) (gitBlame : String → String → AuthorCount)
    (opt : Args) (authors : AuthorPerformance) (date : Date) :
    Except String AuthorPerformance :=
  match gitRevision opt.branch (some date) with
  | none => Except.error "Failed to get revision from branch and date"
  | some revision =>
    let files := (gitFiles revision).filter (fun f => (reason_to_skip f).isNone)
    if files.length = 0 then Except.ok authors
    else Except.ok (insertPerf authors date
      (collectCounts (files.map (gitBlame revision))))

/-- The per-period loop of `main` (main.rs:232-267). -/
def runMain (gitRevision : Option String → Option Date → Option String)
    (gitFiles : String → List String) (gitBlame : String → String → AuthorCount)
    (opt : Args) (dates : List Date) : Except String AuthorPerformance :=
  dates.foldlM (stepPeriod gitRevision gitFiles gitBlame opt) []

/-! ## Matrix renderer (`display_results`, main.rs:183-215) -/

/-- Byte-lexicographic `≤` on ASCII strings (Rust `String` ordering). -/
def lexLe : List Char → List Char → Bool
  | [], _ => true
  | _ :: _, [] => false
  | a :: as', b :: bs' => if a < b then true else if a = b then lexLe as' bs' else false

/-- One insertion step of a stable insertion sort. -/
def insertSorted (x : String) : List String → List String
  | [] => [x]
  | y :: rest => if lexLe x.data y.data then x :: y :: rest else y :: insertSorted x rest

/-- `Vec::<String>::sort()`: stable sort in lexicographic order. -/
def sortStrs (l : List String) : List String := l.foldr insertSorted []

/-- `Vec::dedup()`: remove consecutive duplicates. -/
def dedupAdj : List String → List String
  | [] => []
  | [x] => [x]
  | x :: y :: rest => if x = y then dedupAdj (y :: rest) else x :: dedupAdj (y :: rest)

/-- `perf.get(date)` (main.rs:191, 208). -/
def lookupDate (perf : AuthorPerformance) (d : Date) : Option AuthorCount :=
  (perf.find? (fun p => p.1 = d)).map (fun p => p.2)

/-- `acnt.get(&author).unwrap_or(&0)` (main.rs:209). -/
def getOr0 (m : AuthorCount) (a : Author) : Count :=
  ((m.find? (fun q => q.1 = a)).map (fun q => q.2)).getD 0

/-- The data shown by `display_results` (main.rs:183-215): the sorted date
columns, and for each author row (sorted, de-duplicated) the cells in date
order.  The `opt` parameter is ignored, exactly as `display_results` binds it
as `_opt` (main.rs:183). -/
def displayTable (_opt : Args) (perf : AuthorPerformance) :
    List Date × List (Author × List Count) :=
  let p := reformat perf
  let dates := sortStrs (perfDates p)
  let authors := dedupAdj (sortStrs (dates.flatMap (fun d =>
    match lookupDate p d with
    | some acnt => acnt.map (fun q => q.1)
    | none => [])))
  (dates, authors.map (fun a => (a, dates.flatMap (fun d =>
    match lookupDate p d with
    | some acnt => [getOr0 acnt a]
    | none => []))))

/-! ## Character-level lemmas (ASCII case conversion) -/

theorem isLower_toNat {c : Char} (h : c.isLower = true) : 97 ≤ c.toNat ∧ c.toNat ≤ 122 := by
  simp [Char.isLower, UInt32.le_def, BitVec.le_def] at h
  exact h

theorem isUpper_toNat {c : Char} (h : c.isUpper = true) : 65 ≤ c.toNat ∧ c.toNat ≤ 90 := by
  simp [Char.isUpper, UInt32.le_def, BitVec.le_def] at h
  exact h

theorem not_isUpper_toNat {c : Char} (h : c.isUpper = false) : ¬(65 ≤ c.toNat ∧ c.toNat ≤ 90) := by
  simp [Char.isUpper, UInt32.le_def, BitVec.le_def, Char.toNat, UInt32.toNat] at h ⊢
  omega

theorem not_isLower_toNat {c : Char} (h : c.isLower = false) : ¬(97 ≤ c.toNat ∧ c.toNat ≤ 122) := by
  simp [Char.isLower, UInt32.le_def, BitVec.le_def, Char.toNat, UInt32.toNat] at h ⊢
  omega

theorem toLower_eq_self {c : Char} (h : c.isUpper = false) : c.toLower = c := by
  have h2 := not_isUpper_toNat h
  unfold Char.toLower
  show (if c.toNat ≥ 65 ∧ c.toNat ≤ 90 then Char.ofNat (c.toNat + 32) else c) = c
  rw [if_neg]
  exact fun hc => h2 ⟨hc.1, hc.2⟩

theorem toUpper_eq_self {c : Char} (h : c.isLower = false) : c.toUpper = c := by
  have h2 := not_isLower_toNat h
  unfold Char.toUpper
  show (if c.toNat ≥ 97 ∧ c.toNat ≤ 122 then Char.ofNat (c.toNat - 32) else c) = c
  rw [if_neg]
  exact fun hc => h2 ⟨hc.1, hc.2⟩

theorem toUpper_toLower_of_isLower {c : Char} (h : c.isLower = true) : c.toUpper.toLower = c := by
  obtain ⟨h1, h2⟩ := isLower_toNat h
  have e : c = Char.ofNat c.toNat := (Char.ofNat_toNat c).symm
  rw [e]
  generalize c.toNat = n at h1 h2
  interval_cases n <;> decide

theorem isSpecial_toLower (c : Char) : isSpecial c.toLower = isSpecial c := by
  by_cases h : c.isUpper
  · obtain ⟨h1, h2⟩ := isUpper_toNat h
    have e : c = Char.ofNat c.toNat := (Char.ofNat_toNat c).symm
    rw [e]
    generalize c.toNat = n at h1 h2
    interval_cases n <;> decide
  · rw [toLower_eq_self (by simpa using h)]

theorem isSpecial_toUpper (c : Char) : isSpecial c.toUpper = isSpecial c := by
  by_cases h : c.isLower
  · obtain ⟨h1, h2⟩ := isLower_toNat h
    have e : c = Char.ofNat c.toNat := (Char.ofNat_toNat c).symm
    rw [e]
    generalize c.toNat = n at h1 h2
    interval_cases n <;> decide
  · rw [toUpper_eq_self (by simpa using h)]

theorem toLower_toLower (c : Char) : c.toLower.toLower = c.toLower := by
  by_cases h : c.isUpper
  · obtain ⟨h1, h2⟩ := isUpper_toNat h
    have e : c = Char.ofNat c.toNat := (Char.ofNat_toNat c).symm
    rw [e]
    generalize c.toNat = n at h1 h2
    interval_cases n <;> decide
  · have h' := toLower_eq_self (show c.isUpper = false by simpa using h)
    rw [h']
    exact h'

theorem toLower_toUpper_of_isLower {c : Char} (h : c.isLower = true) : c.toUpper.toLower = c.toLower := by
  rw [toUpper_toLower_of_isLower h]
  have hb := isLower_toNat h
  have hu : c.isUpper = false := by
    by_contra hc
    simp at hc
    exact absurd (isUpper_toNat hc) (by omega)
  rw [toLower_eq_self hu]

/-! ## Lemmas on the normalization pipeline -/

theorem replaceSpecial_no_special {c : Char} {l : List Char} (h : c ∈ replaceSpecial l) :
    isSpecial c = false := by
  simp only [replaceSpecial, List.mem_map] at h
  obtain ⟨a, _, ha⟩ := h
  by_cases hs : isSpecial a
  · simp [hs] at ha
    subst ha
    decide
  · simp [hs] at ha
    subst ha
    simpa using hs

theorem lowerAll_no_special {l : List Char} (h : ∀ c ∈ l, isSpecial c = false) :
    ∀ c ∈ lowerAll l, isSpecial c = false := by
  intro c hc
  simp only [lowerAll, List.mem_map] at hc
  obtain ⟨a, ha, rfl⟩ := hc
  rw [isSpecial_toLower]
  exact h a ha

theorem capitalizeFrom_no_special {l : List Char} (h : ∀ c ∈ l, isSpecial c = false) :
    ∀ b, ∀ c ∈ capitalizeFrom b l, isSpecial c = false := by
  induction l with
  | nil => intro b c hc; simp [capitalizeFrom] at hc
  | cons a rest ih =>
    intro b c hc
    simp only [capitalizeFrom, List.mem_cons] at hc
    rcases hc with hc | hc
    · subst hc
      by_cases hb : (!b && a.isLower) = true
      · rw [if_pos hb, isSpecial_toUpper]
        exact h a (by simp)
      · rw [if_neg hb]
        exact h a (by simp)
    · exact ih (fun c hc => h c (by simp [hc])) (isWordChar a) c hc

theorem replaceSpecial_eq_self {l : List Char} (h : ∀ c ∈ l, isSpecial c = false) :
    replaceSpecial l = l := by
  induction l with
  | nil => rfl
  | cons a rest ih =>
    simp only [replaceSpecial, List.map_cons]
    rw [if_neg (by simpa using h a (by simp))]
    exact congrArg _ (ih fun c hc => h c (by simp [hc]))

theorem lowerAll_capitalizeFrom (l : List Char) : ∀ b, lowerAll (capitalizeFrom b l) = lowerAll l := by
  induction l with
  | nil => intro b; rfl
  | cons a rest ih =>
    intro b
    simp only [capitalizeFrom, lowerAll, List.map_cons]
    rw [show (List.map Char.toLower (capitalizeFrom (isWordChar a) rest)) = lowerAll (capitalizeFrom (isWordChar a) rest) from rfl,
      ih (isWordChar a)]
    by_cases hb : (!b && a.isLower) = true
    · rw [if_pos hb]
      rw [toLower_toUpper_of_isLower (by simp at hb; exact hb.2)]
      rfl
    · rw [if_neg hb]
      rfl

theorem lowerAll_lowerAll (l : List Char) : lowerAll (lowerAll l) = lowerAll l := by
  simp only [lowerAll, List.map_map]
  exact List.map_congr_left (fun a _ => toLower_toLower a)

/-- The full character-level normalization (main.rs:169-174) as a list function;
`reformatName s = ⟨reformatChars s.data⟩` by definition. -/
theorem reformatName_data (s : String) :
    reformatName s = ⟨capitalizeFrom false (lowerAll (replaceSpecial s.data))⟩ := rfl

theorem reformatChars_idem (l : List Char) :
    capitalizeFrom false (lowerAll (replaceSpecial (capitalizeFrom false (lowerAll (replaceSpecial l)))))
      = capitalizeFrom false (lowerAll (replaceSpecial l)) := by
  have h1 : ∀ c ∈ capitalizeFrom false (lowerAll (replaceSpecial l)), isSpecial c = false :=
    capitalizeFrom_no_special (lowerAll_no_special (fun c hc => replaceSpecial_no_special hc)) false
  rw [replaceSpecial_eq_self h1, lowerAll_capitalizeFrom, lowerAll_lowerAll]

/-! ## Lemmas on counting and merging -/

theorem getCount_addCount (m : AuthorCount) (k : Author) (v : Count) (a : Author) :
    getCount (addCount m k v) a = getCount m a + if k = a then v else 0 := by
  induction m with
  | nil => simp [addCount, getCount]
  | cons p rest ih =>
    obtain ⟨k', c⟩ := p
    simp only [addCount]
    by_cases h : k' = k
    · rw [if_pos h]
      subst h
      simp only [getCount]
      split_ifs <;> ring
    · rw [if_neg h]
      simp only [getCount]
      rw [ih]
      split_ifs <;> ring

theorem getCount_mergeInto (f : AuthorCount) :
    ∀ (acc : AuthorCount) (a : Author),
      getCount (mergeInto acc f) a = getCount acc a + getCount f a := by
  induction f with
  | nil => intro acc a; simp [mergeInto, getCount]
  | cons p rest ih =>
    intro acc a
    obtain ⟨k, v⟩ := p
    show getCount (mergeInto (addCount acc k v) rest) a = _
    rw [ih, getCount_addCount]
    simp only [getCount]
    split_ifs <;> ring

theorem getCount_foldl_mergeInto (rs : List AuthorCount) :
    ∀ (acc : AuthorCount) (a : Author),
      getCount (rs.foldl mergeInto acc) a
        = getCount acc a + (rs.map (fun f => getCount f a)).sum := by
  induction rs with
  | nil => intro acc a; simp
  | cons f rest ih =>
    intro acc a
    rw [List.foldl_cons, ih, getCount_mergeInto]
    simp only [List.map_cons, List.sum_cons]
    ring

theorem bucketTotal_addCount (m : AuthorCount) (a : Author) (v : Count) :
    bucketTotal (addCount m a v) = bucketTotal m + v := by
  induction m with
  | nil => simp [addCount, bucketTotal]
  | cons p rest ih =>
    obtain ⟨k, c⟩ := p
    simp only [addCount]
    split_ifs with h
    · simp only [bucketTotal]; ring
    · simp only [bucketTotal]; rw [ih]; ring

theorem bucketTotal_reformatBucket (f : AuthorCount) :
    ∀ acc : AuthorCount, bucketTotal (reformatBucket acc f) = bucketTotal acc + bucketTotal f := by
  induction f with
  | nil => intro acc; simp [reformatBucket, bucketTotal]
  | cons p rest ih =>
    intro acc
    show bucketTotal (reformatBucket (addCount acc (reformatName p.1) p.2) rest) = _
    rw [ih, bucketTotal_addCount]
    simp only [bucketTotal]
    ring

theorem periodTotal_updateDate (f : AuthorCount → AuthorCount) (t : Count)
    (hf : ∀ m, bucketTotal (f m) = bucketTotal m + t) :
    ∀ (perf : AuthorPerformance) (d d' : Date),
      periodTotal (updateDate perf d f) d' = periodTotal perf d' + if d = d' then t else 0 := by
  intro perf
  induction perf with
  | nil =>
    intro d d'
    simp only [updateDate, periodTotal]
    rw [hf]
    simp only [bucketTotal]
    split_ifs <;> ring
  | cons p rest ih =>
    intro d d'
    obtain ⟨k, m⟩ := p
    simp only [updateDate]
    by_cases h : k = d
    · rw [if_pos h]
      subst h
      simp only [periodTotal]
      rw [hf]
      split_ifs <;> ring
    · rw [if_neg h]
      simp only [periodTotal]
      rw [ih]
      split_ifs <;> ring

theorem perfDates_updateDate (f : AuthorCount → AuthorCount) :
    ∀ (perf : AuthorPerformance) (d d' : Date),
      d' ∈ perfDates (updateDate perf d f) ↔ d' ∈ perfDates perf ∨ d' = d := by
  intro perf
  induction perf with
  | nil => intro d d'; simp [updateDate, perfDates]
  | cons p rest ih =>
    intro d d'
    obtain ⟨k, m⟩ := p
    simp only [updateDate]
    by_cases h : k = d
    · rw [if_pos h]
      subst h
      simp [perfDates]
      tauto
    · rw [if_neg h]
      simp [perfDates] at ih ⊢
      rw [ih]
      tauto

theorem reformat_periodTotal_aux (perf : AuthorPerformance) :
    ∀ (acc : AuthorPerformance) (d : Date),
      periodTotal (perf.foldl (fun acc p => updateDate acc p.1 (fun b => reformatBucket b p.2)) acc) d
        = periodTotal acc d + periodTotal perf d := by
  induction perf with
  | nil => intro acc d; simp [periodTotal]
  | cons p rest ih =>
    intro acc d
    rw [List.foldl_cons, ih,
      periodTotal_updateDate (fun b => reformatBucket b p.2) (bucketTotal p.2)
        (fun m => bucketTotal_reformatBucket p.2 m)]
    simp only [periodTotal]
    split_ifs <;> ring

theorem reformat_dates_aux (perf : AuthorPerformance) :
    ∀ (acc : AuthorPerformance) (d : Date),
      d ∈ perfDates (perf.foldl (fun acc p => updateDate acc p.1 (fun b => reformatBucket b p.2)) acc)
        ↔ d ∈ perfDates acc ∨ d ∈ perfDates perf := by
  induction perf with
  | nil => intro acc d; simp [perfDates]
  | cons p rest ih =>
    intro acc d
    rw [List.foldl_cons, ih, perfDates_updateDate]
    simp [perfDates]
    tauto

/-! ## Runs of separators -/

theorem capitalizeFrom_replicate_space :
    ∀ (k : Nat) (b : Bool) (rest : List Char), 1 ≤ k →
      capitalizeFrom b (List.replicate k ' ' ++ rest)
        = List.replicate k ' ' ++ capitalizeFrom false rest := by
  intro k
  induction k with
  | zero => intro b rest h; exact absurd h (by omega)
  | succ n ih =>
    intro b rest _
    rw [List.replicate_succ, List.cons_append]
    simp only [capitalizeFrom,
      show ∀ b : Bool, (!b && Char.isLower ' ') = false from by intro b; cases b <;> decide,
      show isWordChar ' ' = false from by decide]
    rcases Nat.eq_zero_or_pos n with h0 | hpos
    · subst h0
      simp
    · rw [ih false rest hpos]
      simp

theorem reformatChars_run (k : Nat) (hk : 1 ≤ k) :
    capitalizeFrom false (lowerAll (replaceSpecial ("jane".data ++ List.replicate k '-' ++ "doe".data)))
      = "Jane".data ++ List.replicate k ' ' ++ "Doe".data := by
  have h1 : replaceSpecial ("jane".data ++ List.replicate k '-' ++ "doe".data)
      = "jane".data ++ List.replicate k ' ' ++ "doe".data := by
    simp only [replaceSpecial, List.map_append, List.map_replicate]
    congr 1
  have h2 : lowerAll ("jane".data ++ List.replicate k ' ' ++ "doe".data)
      = "jane".data ++ List.replicate k ' ' ++ "doe".data := by
    simp only [lowerAll, List.map_append, List.map_replicate]
    congr 1
  rw [h1, h2, List.append_assoc]
  rw [show ∀ xs, capitalizeFrom false ("jane".data ++ xs)
      = 'J' :: 'a' :: 'n' :: 'e' :: capitalizeFrom true xs from fun xs => rfl]
  rw [capitalizeFrom_replicate_space k true "doe".data hk]
  rw [show capitalizeFrom false "doe".data = "Doe".data from rfl]
  simp [List.append_assoc]

/-! ## The two excluded directory prefixes are mutually exclusive -/

theorem xip_cache_disjoint (p : String) :
    strStartsWith p "xip/" = true → strStartsWith p "cache/" = true → False := by
  intro h1 h2
  rw [strStartsWith] at h1 h2
  rw [show ("xip/" : String).data = ['x', 'i', 'p', '/'] from rfl] at h1
  rw [show ("cache/" : String).data = ['c', 'a', 'c', 'h', 'e', '/'] from rfl] at h2
  cases hd : p.data with
  | nil => rw [hd] at h1; simp [List.isPrefixOf] at h1
  | cons c rest =>
    rw [hd] at h1 h2
    simp [List.isPrefixOf] at h1 h2
    obtain ⟨hc1, -⟩ := h1
    obtain ⟨hc2, -⟩ := h2
    subst hc1
    exact absurd hc2 (by decide)

end GitAuthorStats

namespace GitAuthorStats

theorem reason_to_skip_eq_specClassify (p : String) : reason_to_skip p = specClassify p := by
  unfold reason_to_skip specClassify
  by_cases h1 : strStartsWith p "xip/"
  · by_cases h2 : strStartsWith p "cache/"
    · exact absurd h2 (fun hh => xip_cache_disjoint p h1 hh)
    · simp [h1, h2]
  · by_cases h2 : strStartsWith p "cache/"
    · simp [h1, h2]
    · simp only [h1, h2, Bool.false_eq_true, if_false]
      cases hext : extension p with
      | none => simp
      | some ext =>
        by_cases hb : ext ∈ binary_ext_list
        · simp [hb]
        · by_cases hg : ext ∈ generated_ext_list
          · simp [hb, hg]
          · simp [hb, hg]

end GitAuthorStats

namespace GitAuthorStats

/-! ## Behaviour of the driver loop -/

theorem runMain_error_of_none (gr : Option String → Option Date → Option String)
    (gf : String → List String) (gb : String → String → AuthorCount) (opt : Args) :
    ∀ (dates : List Date) (acc : AuthorPerformance) (d : Date), d ∈ dates →
      gr opt.branch (some d) = none →
      dates.foldlM (stepPeriod gr gf gb opt) acc
        = Except.error "Failed to get revision from branch and date" := by
  intro dates
  induction dates with
  | nil => intro acc d hd; exact absurd hd (by simp)
  | cons d' rest ih =>
    intro acc d hd hnone
    rw [List.foldlM_cons]
    rcases List.mem_cons.mp hd with rfl | hmem
    · simp only [stepPeriod, hnone]
      rfl
    · cases hrev : gr opt.branch (some d') with
      | none =>
        simp only [stepPeriod, hrev]
        rfl
      | some rev =>
        simp only [stepPeriod, hrev]
        by_cases hf : ((gf rev).filter (fun f => (reason_to_skip f).isNone)).length = 0
        · simp only [if_pos hf]
          show rest.foldlM (stepPeriod gr gf gb opt) acc = _
          exact ih acc d hmem hnone
        · simp only [if_neg hf]
          show rest.foldlM (stepPeriod gr gf gb opt) _ = _
          exact ih _ d hmem hnone

theorem runMain_ok_of_all_some (gr : Option String → Option Date → Option String)
    (gf : String → List String) (gb : String → String → AuthorCount) (opt : Args) :
    ∀ (dates : List Date) (acc : AuthorPerformance),
      (∀ d ∈ dates, (gr opt.branch (some d)).isSome) →
      ∃ m, dates.foldlM (stepPeriod gr gf gb opt) acc = Except.ok m ∧
        ∀ d, d ∈ perfDates m ↔
          d ∈ perfDates acc ∨ (d ∈ dates ∧ eligibleFiles gr gf opt d ≠ []) := by
  intro dates
  induction dates with
  | nil =>
    intro acc _
    exact ⟨acc, rfl, by simp⟩
  | cons d' rest ih =>
    intro acc hall
    obtain ⟨rev, hrev⟩ := Option.isSome_iff_exists.mp (hall d' (by simp))
    have helig : eligibleFiles gr gf opt d' = (gf rev).filter (fun f => (reason_to_skip f).isNone) := by
      simp [eligibleFiles, hrev]
    rw [List.foldlM_cons]
    by_cases hf : ((gf rev).filter (fun f => (reason_to_skip f).isNone)).length = 0
    · have hstep : stepPeriod gr gf gb opt acc d' = Except.ok acc := by
        simp [stepPeriod, hrev, hf]
      rw [hstep]
      obtain ⟨m, hm, hmem⟩ := ih acc (fun d hd => hall d (by simp [hd]))
      refine ⟨m, hm, fun d => ?_⟩
      rw [hmem d]
      have helig0 : eligibleFiles gr gf opt d' = [] := by
        rw [helig]
        exact List.length_eq_zero.mp hf
      constructor
      · rintro (h | ⟨h1, h2⟩)
        · exact Or.inl h
        · exact Or.inr ⟨by simp [h1], h2⟩
      · rintro (h | ⟨h1, h2⟩)
        · exact Or.inl h
        · rcases List.mem_cons.mp h1 with rfl | h1'
          · exact absurd helig0 h2
          · exact Or.inr ⟨h1', h2⟩
    · have hstep : stepPeriod gr gf gb opt acc d'
          = Except.ok (insertPerf acc d'
              (collectCounts (((gf rev).filter (fun f => (reason_to_skip f).isNone)).map (gb rev)))) := by
        simp [stepPeriod, hrev, hf]
      rw [hstep]
      obtain ⟨m, hm, hmem⟩ := ih _ (fun d hd => hall d (by simp [hd]))
      refine ⟨m, hm, fun d => ?_⟩
      rw [hmem d]
      rw [show insertPerf acc d' _ = updateDate acc d' _ from rfl, perfDates_updateDate]
      have helig1 : eligibleFiles gr gf opt d' ≠ [] := by
        rw [helig]
        intro hc
        exact hf (by simp [hc])
      constructor
      · rintro ((h | h) | ⟨h1, h2⟩)
        · exact Or.inl h
        · exact Or.inr ⟨by simp [h], by rwa [h]⟩
        · exact Or.inr ⟨by simp [h1], h2⟩
      · rintro (h | ⟨h1, h2⟩)
        · exact Or.inl (Or.inl h)
        · rcases List.mem_cons.mp h1 with rfl | h1'
          · exact Or.inl (Or.inr rfl)
          · exact Or.inr ⟨h1', h2⟩

end GitAuthorStats

namespace GitAuthorStats

/-! ## Structure of the generated period list -/

theorem genPeriodsAux_eq : ∀ n : Nat,
    (List.range n).flatMap (fun i => monthsOfYear (2016 + i))
      = (List.range (12 * n)).map (fun p => (2016 + p / 12, p % 12 + 1)) := by
  intro n
  induction n with
  | zero => rfl
  | succ k ih =>
    rw [List.range_succ, List.flatMap_append, ih,
      show 12 * (k + 1) = 12 * k + 12 from by ring, List.range_add, List.map_append]
    congr 1
    simp only [List.flatMap_cons, List.flatMap_nil, List.append_nil, List.map_map,
      monthsOfYear]
    apply List.map_congr_left
    intro j hj
    rw [List.mem_range] at hj
    have h1 : (12 * k + j) / 12 = k := by omega
    have h2 : (12 * k + j) % 12 = j := by omega
    simp [Function.comp, h1, h2]

theorem genPeriods_eq (cy : Nat) :
    genPeriods cy
      = (List.range (12 * (cy + 1 - 2016))).map (fun p => (2016 + p / 12, p % 12 + 1)) :=
  genPeriodsAux_eq (cy + 1 - 2016)

theorem genPeriods_mem (cy y m : Nat) :
    (y, m) ∈ genPeriods cy ↔ 2016 ≤ y ∧ y ≤ cy ∧ 1 ≤ m ∧ m ≤ 12 := by
  unfold genPeriods monthsOfYear
  simp only [List.mem_flatMap, List.mem_range, List.mem_map]
  constructor
  · rintro ⟨i, hi, j, hj, he⟩
    have hy : 2016 + i = y := congrArg Prod.fst he
    have hm : j + 1 = m := congrArg Prod.snd he
    omega
  · rintro ⟨h1, h2, h3, h4⟩
    refine ⟨y - 2016, by omega, m - 1, by omega, ?_⟩
    have e1 : 2016 + (y - 2016) = y := by omega
    have e2 : m - 1 + 1 = m := by omega
    rw [e1, e2]

theorem genPeriods_pairwise (cy : Nat) : List.Pairwise periodBefore (genPeriods cy) := by
  rw [genPeriods_eq, List.pairwise_map]
  refine (List.pairwise_lt_range _).imp ?_
  intro a b hab
  unfold periodBefore
  dsimp only
  omega

end GitAuthorStats

namespace GitAuthorStats

/-! ## The claims -/

/-- C1 (counterexample): with a resolver that fails for the first period
(e.g. the branch does not exist there), the run does not skip the period and
continue — it terminates with the `expect` failure of main.rs:233, and no
report for the remaining period is produced. -/
theorem c1_counterexample :
    runMain (fun _ d => if d = some "2016-01-01" then none else some "r")
      (fun _ => ["main.rs"]) (fun _ _ => [("alice", 1)])
      ⟨false, false, false, none, none, "."⟩ ["2016-01-01", "2016-02-01"]
      = Except.error "Failed to get revision from branch and date" := rfl

/-- C1 (amended): when `git_revision` returns `None` for any period, the whole
run terminates with the `expect` panic (main.rs:233); a period is skipped with
processing continuing only when its snapshot resolves but yields zero eligible
files, and exactly the periods with at least one eligible file appear in the
final result. -/
theorem c1_notfound_fatal_skip_only_empty :
    (∀ (gr : Option String → Option Date → Option String) (gf : String → List String)
        (gb : String → String → AuthorCount) (opt : Args) (dates : List Date) (d : Date),
      d ∈ dates → gr opt.branch (some d) = none →
      runMain gr gf gb opt dates
        = Except.error "Failed to get revision from branch and date") ∧
    (∀ (gr : Option String → Option Date → Option String) (gf : String → List String)
        (gb : String → String → AuthorCount) (opt : Args) (dates : List Date),
      (∀ d ∈ dates, (gr opt.branch (some d)).isSome) →
      ∃ m, runMain gr gf gb opt dates = Except.ok m ∧
        ∀ d, d ∈ perfDates m ↔ d ∈ dates ∧ eligibleFiles gr gf opt d ≠ []) := by
  constructor
  · intro gr gf gb opt dates d hd hnone
    exact runMain_error_of_none gr gf gb opt dates [] d hd hnone
  · intro gr gf gb opt dates hall
    obtain ⟨m, hm, hmem⟩ := runMain_ok_of_all_some gr gf gb opt dates [] hall
    refine ⟨m, hm, fun d => ?_⟩
    rw [hmem d]
    simp [perfDates]

/-- C1 (witness): both parts of `c1_notfound_fatal_skip_only_empty` applied at
concrete inputs. -/
theorem c1_notfound_fatal_skip_only_empty_witness :
    (runMain (fun _ _ => none) (fun _ => []) (fun _ _ => [])
        ⟨false, false, false, none, none, "."⟩ ["2016-01-01"]
      = Except.error "Failed to get revision from branch and date") ∧
    (∃ m, runMain (fun _ _ => some "r") (fun _ => ["main.rs"]) (fun _ _ => [("alice", 1)])
        ⟨false, false, false, none, none, "."⟩ ["2016-01-01"]
        = Except.ok m ∧
      ∀ d, d ∈ perfDates m ↔ d ∈ ["2016-01-01"] ∧
        eligibleFiles (fun _ _ => some "r") (fun _ => ["main.rs"])
          ⟨false, false, false, none, none, "."⟩ d ≠ []) :=
  ⟨c1_notfound_fatal_skip_only_empty.1 _ _ _ _ _ "2016-01-01" (by decide) rfl,
   c1_notfound_fatal_skip_only_empty.2 _ _ _ _ _ (by decide)⟩

end GitAuthorStats

namespace GitAuthorStats

/-- C2 (counterexample): a raw name with a run of two separators does not
normalize to a single space between the words — `reformat`'s regex `[-_\.]`
replaces each separator character by its own space, so "jane--doe" becomes
"Jane  Doe" (two spaces), not "Jane Doe". -/
theorem c2_counterexample :
    reformatName "jane--doe" ≠ "Jane Doe" ∧ reformatName "jane--doe" = "Jane  Doe" := by
  decide

/-- C2 (amended): the normalizer replaces every separator character (`-`, `_`,
`.`) by one space — a run of `k ≥ 1` separators becomes exactly `k` spaces —
then lower-cases everything and capitalizes the first letter of each word. -/
theorem c2_separator_per_char :
    ∀ k : Nat, 1 ≤ k →
      reformatName ⟨"jane".data ++ List.replicate k '-' ++ "doe".data⟩
        = ⟨"Jane".data ++ List.replicate k ' ' ++ "Doe".data⟩ :=
  fun k hk => congrArg (fun l => (⟨l⟩ : String)) (reformatChars_run k hk)

/-- C2 (witness): `c2_separator_per_char` at `k = 2`. -/
theorem c2_separator_per_char_witness :
    reformatName ⟨"jane".data ++ List.replicate 2 '-' ++ "doe".data⟩
      = ⟨"Jane".data ++ List.replicate 2 ' ' ++ "Doe".data⟩ :=
  c2_separator_per_char 2 (by decide)

/-- C3: the `--date` CLI flag (cli_args.rs:29-31) has no effect on the run —
`main` never reads `opt.date`; each period's `git log` query uses only the
period's own date (main.rs:233), so the result is identical for any two values
of the flag, rather than bounding every period by the flag date. -/
theorem c3_date_flag_ignored :
    ∀ (gr : Option String → Option Date → Option String) (gf : String → List String)
      (gb : String → String → AuthorCount) (al pc se : Bool) (br fd fd' : Option String)
      (pa : String) (dates : List Date),
      runMain gr gf gb ⟨al, pc, se, br, fd, pa⟩ dates
        = runMain gr gf gb ⟨al, pc, se, br, fd', pa⟩ dates :=
  fun _ _ _ _ _ _ _ _ _ _ _ => rfl

/-- C4: `display_results` ignores its options argument (bound as `_opt`,
main.rs:183): with `alphabetical = false` (so the flag's own help text promises
sort-by-volume) and `as_percent = true`, the rows still come out alphabetical
("Ann" with total 1 before "Zed" with total 100) and the cells are absolute
counts, not percentages; the output equals the one with the opposite flags. -/
theorem c4_renderer_ignores_options :
    displayTable ⟨false, true, false, none, none, "."⟩
        [("2020-01-01", [("zed", 100), ("ann", 1)])]
      = (["2020-01-01"], [("Ann", [1]), ("Zed", [100])]) ∧
    (∀ (opt opt' : Args) (perf : AuthorPerformance),
      displayTable opt perf = displayTable opt' perf) :=
  ⟨by decide, fun _ _ _ => rfl⟩

/-- C5 (counterexample): run in October 2026 (`dt.year() = 2026`), the
generated period list still contains "2026-11-01" and "2026-12-01" — months
after the current month — whereas the spec's list of months through the current
month (`specPeriods 2026 10`) stops at October. -/
theorem c5_counterexample :
    fmtDate 2026 11 ∈ genDates 2026 ∧ ((2026 : Nat), (11 : Nat)) ∉ specPeriods 2026 10 ∧
      genPeriods 2026 ≠ specPeriods 2026 10 := by
  refine ⟨by decide, by decide, by decide⟩

/-- C5 (amended): the generated periods are exactly the calendar months from
January 2016 through December of the current year (all twelve months of every
year in range, including months of the current year after the current month),
in ascending chronological order; the date strings are their
`"{year:4}-{month:02}-01"` renderings in the same order. -/
theorem c5_periods_full_years :
    (∀ cy y m : Nat, (y, m) ∈ genPeriods cy ↔ 2016 ≤ y ∧ y ≤ cy ∧ 1 ≤ m ∧ m ≤ 12) ∧
    (∀ cy : Nat, List.Pairwise periodBefore (genPeriods cy)) ∧
    (∀ cy : Nat, genDates cy = (genPeriods cy).map (fun p => fmtDate p.1 p.2)) :=
  by
  refine ⟨fun cy y m => genPeriods_mem cy y m, fun cy => genPeriods_pairwise cy, fun cy => ?_⟩
  rfl

end GitAuthorStats

namespace GitAuthorStats

/-- C6: the Exclusion Classifier is a total function of the path, and it equals
the classifier the spec describes rule-for-rule in the spec's precedence order
(`specClassify`); in the code the two directory-prefix checks come in the other
order, but no path can start with both `"xip/"` and `"cache/"`, so the
functions agree on every path.  The three spec scenarios evaluate as claimed:
`"cache/out.bin"` is excluded by the prefix rule even though its extension is
in the binary set, `"src/thing.v"` is excluded as autogenerated, and
`"src/main.rs"` is not excluded. -/
theorem c6_exclusion_classifier :
    (∀ p : String, reason_to_skip p = specClassify p) ∧
    reason_to_skip "cache/out.bin" = some "generated           " ∧
    "bin" ∈ binary_ext_list ∧
    reason_to_skip "src/thing.v" = some "autogenerated       " ∧
    reason_to_skip "src/main.rs" = none :=
  ⟨reason_to_skip_eq_specClassify, by decide, by decide, by decide, by decide⟩

/-- C7: the channel fan-in fold (main.rs:258-263) gives every author the sum of
that author's counts over all per-file results, and the total is invariant
under any permutation of the completion order. -/
theorem c7_merge_commutative :
    (∀ (results : List AuthorCount) (a : Author),
      getCount (collectCounts results) a = (results.map (fun f => getCount f a)).sum) ∧
    (∀ (results results' : List AuthorCount), results.Perm results' →
      ∀ a : Author, getCount (collectCounts results) a = getCount (collectCounts results') a) := by
  have hmain : ∀ (rs : List AuthorCount) (a : Author),
      getCount (collectCounts rs) a = (rs.map (fun f => getCount f a)).sum := by
    intro rs a
    have h := getCount_foldl_mergeInto rs [] a
    simpa [collectCounts, getCount] using h
  refine ⟨hmain, fun rs rs' h a => ?_⟩
  rw [hmain, hmain]
  exact List.Perm.sum_eq (h.map _)

/-- C7 (witness): `c7_merge_commutative` on two concrete per-file results merged
in both orders. -/
theorem c7_merge_commutative_witness :
    getCount (collectCounts [[("alice", 2)], [("bob", 3), ("alice", 1)]]) "alice"
      = getCount (collectCounts [[("bob", 3), ("alice", 1)], [("alice", 2)]]) "alice" :=
  c7_merge_commutative.2 _ _ (List.Perm.swap _ _ _) "alice"

/-- C8: the Identity Normalizer is idempotent — applying `reformat`'s name
transformation to an already-normalized name returns it unchanged. -/
theorem c8_normalizer_idempotent :
    ∀ s : String, reformatName (reformatName s) = reformatName s :=
  fun s => congrArg (fun l => (⟨l⟩ : String)) (reformatChars_idem s.data)

/-- C9: `"jane-doe"` and `"Jane_Doe"` both normalize to `"Jane Doe"`, and when
one period's aggregated raw counts attribute 10 lines to the first (from one
file) and 5 to the second (from another), the normalized report for that period
shows 15 for `"Jane Doe"`. -/
theorem c9_identity_merge :
    reformatName "jane-doe" = "Jane Doe" ∧
    reformatName "Jane_Doe" = "Jane Doe" ∧
    periodCount (reformat [("2021-03-01",
        collectCounts [[("jane-doe", 10)], [("Jane_Doe", 5)]])]) "2021-03-01" "Jane Doe" = 15 :=
  ⟨by decide, by decide, by decide⟩

/-- C10: name normalization conserves line totals — for every input and every
period, the per-period sum of counts after `reformat` equals the sum before,
and the set of period keys is unchanged. -/
theorem c10_reformat_conserves_totals :
    ∀ (perf : AuthorPerformance) (d : Date),
      periodTotal (reformat perf) d = periodTotal perf d ∧
      (d ∈ perfDates (reformat perf) ↔ d ∈ perfDates perf) := by
  intro perf d
  constructor
  · have h := reformat_periodTotal_aux perf [] d
    simpa [reformat, periodTotal] using h
  · have h := reformat_dates_aux perf [] d
    simpa [reformat, perfDates] using h

end GitAuthorStats
